import Mathlib

/-!
Verification of the EasyGUI core (`src/00-GUI_LIBRARY/gui.h`).

The header provides the internal macros (`__GUI_RECT_MATCH`, `__GUI_ABS`,
`__GUI_MIN`/`__GUI_MAX`, `__GUI_ASSERTPARAMS`, `__GUI_ASSERTACTIVEWIN`) and the
main `GUI_t` state structure together with the declarations of `GUI_Init`,
`GUI_Process` and the timer/widget/input subsystems.  The macros are embedded
directly from the source; the subsystems whose implementation files are not
part of the repository snapshot (timer core, widget tree, input router,
process loop) are modelled from the specification, as indicated on each
definition.
-/

namespace EasyGUI

/-- Embedding of `__GUI_RECT_MATCH(h1x1,h1y1,h1x2,h1y2,h2x1,h2y1,h2x2,h2y2)`
from gui.h: `!(h1x1 > h2x2 || h1y1 > h2y2 || h2x1 > h1x2 || h2y1 > h1y2)`. -/
def rectMatch (h1x1 h1y1 h1x2 h1y2 h2x1 h2y1 h2x2 h2y2 : Int) : Bool :=
  !(decide (h1x1 > h2x2) || decide (h1y1 > h2y2) ||
    decide (h2x1 > h1x2) || decide (h2y1 > h1y2))

/-- Taken from the spec's words for comparison with `rectMatch`: two closed
rectangles share a positive-area region iff the intersection rectangle has
strictly positive width and height. -/
def posAreaOverlap (h1x1 h1y1 h1x2 h1y2 h2x1 h2y1 h2x2 h2y2 : Int) : Prop :=
  max h1x1 h2x1 < min h1x2 h2x2 ∧ max h1y1 h2y1 < min h1y2 h2y2

instance (a b c d e f g h : Int) : Decidable (posAreaOverlap a b c d e f g h) := by
  unfold posAreaOverlap; infer_instance

/-- Embedding of `__GUI_MAX(x, y)` from gui.h. -/
def guiMax (x y : Int) : Int := if x > y then x else y

/-- Embedding of `__GUI_MIN(x, y)` from gui.h. -/
def guiMin (x y : Int) : Int := if x < y then x else y

/-- Wrap an unbounded integer into the value range of a `w`-bit two's
complement signed integer, `[-2^(w-1), 2^(w-1))`. -/
def toSigned (w : Nat) (n : Int) : Int :=
  (n + 2 ^ (w - 1)) % 2 ^ w - 2 ^ (w - 1)

/-- Embedding of `__GUI_ABS(x)` from gui.h, `((x) >= 0 ? (x) : -(x))`,
evaluated on a `w`-bit signed integer: the negation of an in-range value
wraps modulo `2^w` back into the signed range. -/
def guiAbs (w : Nat) (x : Int) : Int :=
  if x ≥ 0 then x else toSigned w (-x)

/-- Embedding of `__GUI_ASSERTPARAMS(c)` from gui.h: when the condition `c`
fails the enclosing call prints a debug message and returns 0; otherwise the
rest of the function body `k` runs.  The check is part of the macro body
unconditionally (there is no build-mode guard around it). -/
def guiAssertParams (c : Bool) (k : Unit → Int) : Int :=
  if c then k () else 0

/- Helper: boolean shuffling used for the symmetry of `rectMatch`. -/
theorem bool_or_shuffle (a b c d : Bool) : (!(a || b || c || d)) = !(c || d || a || b) := by
  cases a <;> cases b <;> cases c <;> cases d <;> rfl

/- Characterization of the source macro as four corner comparisons. -/
theorem rectMatch_iff (a b c d e f g h : Int) :
    rectMatch a b c d e f g h = true ↔ (a ≤ g ∧ b ≤ h ∧ e ≤ c ∧ f ≤ d) := by
  simp only [rectMatch, Bool.not_eq_true', Bool.or_eq_false_iff,
    decide_eq_false_iff_not, not_lt]
  tauto

/-- C1: the rectangle-overlap test is symmetric, but it reports overlap for
rectangles that merely touch at an edge or corner: the source macro compares
with strict `>` on closed corners, so `rectMatch` is true exactly when the
closed rectangles intersect, not when the overlap has positive area. -/
theorem rectMatch_symm_and_closed (a b c d e f g h : Int) :
    rectMatch a b c d e f g h = rectMatch e f g h a b c d ∧
    (a ≤ c → b ≤ d → e ≤ g → f ≤ h →
      (rectMatch a b c d e f g h = true ↔
        ∃ px py : Int, (a ≤ px ∧ px ≤ c ∧ b ≤ py ∧ py ≤ d) ∧
                       (e ≤ px ∧ px ≤ g ∧ f ≤ py ∧ py ≤ h))) := by
  constructor
  · exact bool_or_shuffle _ _ _ _
  · intro h1 h2 h3 h4
    rw [rectMatch_iff]
    constructor
    · intro hm
      obtain ⟨hag, hbh, hec, hfd⟩ := hm
      rcases le_total a e with hae | hae <;> rcases le_total b f with hbf | hbf
      · exact ⟨e, f, by omega, by omega⟩
      · exact ⟨e, b, by omega, by omega⟩
      · exact ⟨a, f, by omega, by omega⟩
      · exact ⟨a, b, by omega, by omega⟩
    · rintro ⟨px, py, ⟨hpa, hpc, hpb, hpd⟩, ⟨hpe, hpg, hpf, hph⟩⟩
      omega

/-- Witness for C1 on concrete rectangles `[0,2]×[0,2]` and `[1,3]×[1,3]`. -/
theorem rectMatch_symm_and_closed_witness :
    rectMatch 0 0 2 2 1 1 3 3 = rectMatch 1 1 3 3 0 0 2 2 ∧
    (rectMatch 0 0 2 2 1 1 3 3 = true ↔
      ∃ px py : Int, ((0:Int) ≤ px ∧ px ≤ 2 ∧ (0:Int) ≤ py ∧ py ≤ 2) ∧
                     ((1:Int) ≤ px ∧ px ≤ 3 ∧ (1:Int) ≤ py ∧ py ≤ 3)) :=
  ⟨(rectMatch_symm_and_closed 0 0 2 2 1 1 3 3).1,
   (rectMatch_symm_and_closed 0 0 2 2 1 1 3 3).2
     (by decide) (by decide) (by decide) (by decide)⟩

/-- C1 counterexample: the rectangles `[0,1]×[0,1]` and `[1,2]×[0,1]` share
only the zero-area segment `x = 1`, yet the source macro reports them as
overlapping, so "overlap iff positive-area shared region" fails. -/
theorem rectMatch_touching_edge_counts :
    rectMatch 0 0 1 1 1 0 2 1 = true ∧ ¬ posAreaOverlap 0 0 1 1 1 0 2 1 := by
  decide

/-- C3: a violated parameter contract is not undefined behavior and is not
checked only in debug builds: `__GUI_ASSERTPARAMS` always tests the condition
and makes the call return 0, a recoverable error return, instead of running
the function body. -/
theorem guiAssertParams_checked (k : Unit → Int) :
    guiAssertParams false k = 0 ∧ guiAssertParams true k = k () := by
  constructor <;> rfl

/-- C3 counterexample: with the contract violated, the call evaluates to the
defined error value 0 — not to the body's value, and not to anything
build-mode dependent — so the violation is a recoverable error return. -/
theorem guiAssertParams_release_counterexample :
    guiAssertParams false (fun _ => (42 : Int)) = 0 ∧ (0 : Int) ≠ 42 := by
  constructor
  · rfl
  · decide

/-- C10: on a `w`-bit signed integer, `__GUI_ABS` returns the usual absolute
value, which is non-negative, for every input strictly above the minimum
representable value; at the minimum value `-2^(w-1)` the negation wraps
around modulo `2^w` and the macro returns the minimum value itself, which is
negative. -/
theorem guiAbs_spec (w : Nat) (x : Int) (hw : 1 ≤ w) :
    (-(2 ^ (w - 1)) < x → x < 2 ^ (w - 1) → 0 ≤ guiAbs w x ∧ guiAbs w x = |x|) ∧
    (x = -(2 ^ (w - 1)) → guiAbs w x = -(2 ^ (w - 1)) ∧ guiAbs w x < 0) := by
  have hpow : (2 : Int) ^ w = 2 ^ (w - 1) * 2 := by
    have : w = (w - 1) + 1 := by omega
    rw [this, pow_succ]
    simp
  have hpos : (0 : Int) < 2 ^ (w - 1) := by positivity
  constructor
  · intro hlo hhi
    by_cases hx : x ≥ 0
    · have hga : guiAbs w x = x := by
        unfold guiAbs
        rw [if_pos hx]
      rw [hga, abs_of_nonneg hx]
      exact ⟨hx, rfl⟩
    · push_neg at hx
      have habs : |x| = -x := abs_of_neg hx
      have hval : toSigned w (-x) = -x := by
        unfold toSigned
        have h1 : (0 : Int) ≤ -x + 2 ^ (w - 1) := by omega
        have h2 : -x + 2 ^ (w - 1) < 2 ^ w := by omega
        rw [Int.emod_eq_of_lt h1 h2]
        ring
      have hga : guiAbs w x = -x := by
        unfold guiAbs
        rw [if_neg (by omega : ¬ x ≥ 0), hval]
      rw [hga, habs]
      exact ⟨by omega, rfl⟩
  · intro hmin
    have hx : ¬ x ≥ 0 := by omega
    have hval : toSigned w (-x) = -(2 ^ (w - 1)) := by
      unfold toSigned
      rw [hmin]
      have : -(-(2 ^ (w - 1)) : Int) + 2 ^ (w - 1) = 2 ^ w := by omega
      rw [this, Int.emod_self]
      ring
    have hga : guiAbs w x = -(2 ^ (w - 1)) := by
      unfold guiAbs
      rw [if_neg hx, hval]
    rw [hga]
    exact ⟨rfl, by omega⟩

/-- Witness for C10 at `w = 8`: `__GUI_ABS(-5)` is 5 and non-negative, while
`__GUI_ABS(-128)` stays -128, the negative minimum of `int8_t`. -/
theorem guiAbs_spec_witness :
    (0 ≤ guiAbs 8 (-5) ∧ guiAbs 8 (-5) = |(-5 : Int)|) ∧
    (guiAbs 8 (-128) = -(2 ^ (8 - 1)) ∧ guiAbs 8 (-128) < 0) := by
  refine ⟨(guiAbs_spec 8 (-5) (by decide)).1 (by decide) (by decide), ?_⟩
  exact (guiAbs_spec 8 (-128) (by decide)).2 (by decide)

/-- Modelled from the spec: the timer entity (spec section 3, "Timer") held
in the `GUI_t.Timers` collection — a remaining/period countdown in
milliseconds and a one-shot-vs-periodic flag.  The timer implementation file
(`utils/gui_timer.h`, included from gui.h) is not part of the repository
snapshot. -/
structure Timer where
  remaining : Nat
  period : Nat
  periodic : Bool
  deriving DecidableEq, Repr

/-- Modelled from the spec: `advance(elapsedMs)` for a single timer — ages it
by the elapsed time, fires each time the countdown reaches zero, reloading a
periodic timer with its period and carrying the leftover elapsed time (spec
sections 4.2 and 8: a periodic timer of period P fires floor(T/P) times over
elapsed T; period 100 advanced by 250 leaves a countdown of 50).  Returns the
aged timer and the number of callback invocations; a one-shot timer fires at
most once (the core then removes it). -/
def advanceTimer (t : Timer) (e : Nat) : Timer × Nat :=
  if e < t.remaining then ({ t with remaining := t.remaining - e }, 0)
  else if t.periodic then
    ({ t with remaining := t.period - (e - t.remaining) % t.period },
     1 + (e - t.remaining) / t.period)
  else (t, 1)

/-- Modelled from the spec: `advance(elapsedMs)` over the whole timer
collection `GUI_t.Timers`: ages every live timer, removes expired one-shot
timers, and reports the total number of callback invocations. -/
def coreAdvance (ts : List Timer) (e : Nat) : List Timer × Nat :=
  match ts with
  | [] => ([], 0)
  | t :: rest =>
    let (t2, n) := advanceTimer t e
    let (rest2, m) := coreAdvance rest e
    (if n > 0 && !t.periodic then rest2 else t2 :: rest2, n + m)

/-- C4: a periodic timer with period P, freshly loaded (remaining = period)
and advanced by T with no cancellation in between, fires exactly floor(T/P)
times; advancing a timer by 0 leaves it unchanged and fires nothing, and
advancing the whole timer core by 0 changes no timer and fires no callback;
concretely, a periodic timer of period 100 advanced once by 250 has fired
twice and has a countdown of exactly 50 left. -/
theorem advance_fires_floor (t : Timer) (e : Nat) (ts : List Timer) :
    (t.periodic = true → 0 < t.period → t.remaining = t.period →
      (advanceTimer t e).2 = e / t.period) ∧
    (0 < t.remaining → advanceTimer t 0 = (t, 0)) ∧
    ((∀ u ∈ ts, 0 < u.remaining) → coreAdvance ts 0 = (ts, 0)) ∧
    advanceTimer ⟨100, 100, true⟩ 250 = (⟨50, 100, true⟩, 2) := by
  refine ⟨?_, ?_, ?_, by decide⟩
  · intro hper hpos hfresh
    by_cases hlt : e < t.remaining
    · rw [advanceTimer, if_pos hlt]
      rw [hfresh] at hlt
      simp [Nat.div_eq_of_lt hlt]
    · rw [advanceTimer, if_neg hlt, if_pos hper]
      push_neg at hlt
      rw [hfresh] at hlt ⊢
      simp only
      rw [Nat.div_eq_sub_div hpos hlt]
      omega
  · intro hrem
    rw [advanceTimer, if_pos hrem]
    simp
  · intro hall
    induction ts with
    | nil => rfl
    | cons u rest ih =>
      have hu : advanceTimer u 0 = (u, 0) := by
        rw [advanceTimer, if_pos (hall u (List.mem_cons_self u rest))]
        simp
      have hrest := ih (fun v hv => hall v (List.mem_cons_of_mem u hv))
      simp only [coreAdvance, hu, hrest]
      simp

/-- Witness for C4: the floor-count law at T = 250, P = 100, the zero-advance
law on a single timer and on a two-timer core, applied at concrete inputs. -/
theorem advance_fires_floor_witness :
    (advanceTimer ⟨100, 100, true⟩ 250).2 = 250 / 100 ∧
    advanceTimer ⟨70, 100, false⟩ 0 = (⟨70, 100, false⟩, 0) ∧
    coreAdvance [⟨100, 100, true⟩, ⟨30, 30, false⟩] 0 =
      ([⟨100, 100, true⟩, ⟨30, 30, false⟩], 0) :=
  ⟨(advance_fires_floor ⟨100, 100, true⟩ 250 []).1 rfl (by decide) rfl,
   (advance_fires_floor ⟨70, 100, false⟩ 0 []).2.1 (by decide),
   (advance_fires_floor ⟨100, 100, true⟩ 0
      [⟨100, 100, true⟩, ⟨30, 30, false⟩]).2.2.1 (by decide)⟩

/-- Modelled from the spec: a widget node (spec section 3, "Widget") — an id,
a non-owning parent reference (none for a top-level root window), a
parent-relative rectangle (x, y, width, height), the
visibility/disabled/dirty flags and the focusable capability bit of its kind.
The widget implementation (`widgets/gui_widget.h`, included from gui.h) is
not part of the repository snapshot.  Per the spec's single-level-of-nesting
design, only root widgets (parent = none) own children. -/
structure Widget where
  id : Nat
  parent : Option Nat
  x : Int
  y : Int
  w : Int
  h : Int
  visible : Bool
  disabled : Bool
  focusable : Bool
  dirty : Bool
  deriving DecidableEq, Repr

/-- Look a widget up by id in the store (first match). -/
def lookupW (ws : List Widget) (i : Nat) : Option Widget :=
  ws.find? (fun q => decide (q.id = i))

/-- The top-level root windows, in insertion (z-) order. -/
def rootsOf (ws : List Widget) : List Widget :=
  ws.filter (fun r => decide (r.parent = none))

/-- The children of the root with id `p`, in insertion (z-) order. -/
def childrenOf (ws : List Widget) (p : Nat) : List Widget :=
  ws.filter (fun c => decide (c.parent = some p))

/-- Absolute origin of a widget: its parent-relative origin shifted by the
parent root's origin (spec section 3: absolute = parent-relative plus the
parent's absolute origin; a root's absolute origin is its own). -/
def absPos (ws : List Widget) (wd : Widget) : Int × Int :=
  match wd.parent with
  | none => (wd.x, wd.y)
  | some p =>
    match lookupW ws p with
    | some q => (q.x + wd.x, q.y + wd.y)
    | none => (wd.x, wd.y)

/-- Point-in-rectangle test for a rectangle given as origin plus size. -/
def inRectB (rx ry rw rh px py : Int) : Bool :=
  decide (rx ≤ px) && decide (px < rx + rw) &&
  decide (ry ≤ py) && decide (py < ry + rh)

/-- Modelled from the spec: a widget is clipped away when the point lies
outside its ancestor root's rectangle (spec section 4.4/4.5: hit-testing
skips widgets clipped away by an ancestor's rectangle). -/
def clipOkB (ws : List Widget) (px py : Int) (wd : Widget) : Bool :=
  match wd.parent with
  | none => true
  | some p =>
    match lookupW ws p with
    | some q => inRectB q.x q.y q.w q.h px py
    | none => false

/-- Modelled from the spec: the hit predicate of `findAt` — the widget is
visible, not disabled, its absolute rectangle contains the point, and no
ancestor rectangle clips the point away. -/
def hitB (ws : List Widget) (px py : Int) (wd : Widget) : Bool :=
  wd.visible && !wd.disabled &&
  inRectB (absPos ws wd).1 (absPos ws wd).2 wd.w wd.h px py &&
  clipOkB ws px py wd

/-- Modelled from the spec: the root-to-leaf reverse-z-order walk of
`findAt` — most recently added root first; within a root, its children from
most to least recently added (topmost sibling first), then the root itself
(children are drawn on top of their parent). -/
def searchOrder (ws : List Widget) : List Widget :=
  (rootsOf ws).reverse.flatMap (fun r => (childrenOf ws r.id).reverse ++ [r])

/-- Modelled from the spec: `findAt(point)` — the first widget of the
reverse-z-order walk satisfying the hit predicate, or null when none does
(spec section 4.4). -/
def findAt (ws : List Widget) (px py : Int) : Option Nat :=
  ((searchOrder ws).find? (hitB ws px py)).map (fun wd => wd.id)

/-- A widget `wd2` was added (inserted) more recently than `wd`:
it occurs strictly after `wd` in the creation-ordered store. -/
def addedAfter (ws : List Widget) (wd wd2 : Widget) : Prop :=
  ∃ l1 l2, ws = l1 ++ wd :: l2 ∧ wd2 ∈ l2

/-- Well-formedness of the store used by the `findAt` theorems: every parent
reference denotes a root window present in the store (the spec's
single-level-of-nesting design). -/
def twoLevelB (ws : List Widget) : Bool :=
  ws.all (fun wd =>
    match wd.parent with
    | none => true
    | some pid => ws.any (fun r => decide (r.id = pid) && decide (r.parent = none)))

/- Generic helper: the element returned by find? splits the list, with every
earlier element failing the predicate. -/
theorem find?_split {α : Type} (p : α → Bool) :
    ∀ (l : List α) (a : α), l.find? p = some a →
      ∃ l1 l2, l = l1 ++ a :: l2 ∧ ∀ x ∈ l1, p x = false := by
  intro l
  induction l with
  | nil => intro a h; cases h
  | cons b t ih =>
    intro a h
    by_cases hb : p b = true
    · rw [List.find?_cons_of_pos _ hb] at h
      obtain rfl : b = a := by injection h
      exact ⟨[], t, rfl, by intro x hx; cases hx⟩
    · rw [List.find?_cons_of_neg _ hb] at h
      obtain ⟨l1, l2, rfl, hfail⟩ := ih a h
      refine ⟨b :: l1, l2, rfl, ?_⟩
      intro x hx
      rcases List.mem_cons.mp hx with rfl | hx2
      · exact Bool.not_eq_true _ ▸ (by simpa using hb)
      · exact hfail x hx2

/- Generic helper: if find? over an append returns an element not in the
prefix, every prefix element fails and the suffix find? returns it. -/
theorem find?_prefix_none {α : Type} (p : α → Bool) (l1 l2 : List α) (a : α)
    (h : (l1 ++ l2).find? p = some a) (hna : a ∉ l1) :
    (∀ x ∈ l1, p x = false) ∧ l2.find? p = some a := by
  rw [List.find?_append] at h
  cases h1 : l1.find? p with
  | some b =>
    rw [h1] at h
    simp only [Option.or] at h
    obtain rfl : b = a := by injection h
    exact absurd (List.mem_of_find?_eq_some h1) hna
  | none =>
    rw [h1] at h
    simp only [Option.or] at h
    refine ⟨?_, h⟩
    intro x hx
    have := List.find?_eq_none.mp h1 x hx
    exact Bool.not_eq_true _ ▸ (by simpa using this)

/- Every element of the reverse-z-order walk is a widget of the store. -/
theorem mem_of_mem_searchOrder (ws : List Widget) (wd : Widget)
    (hm : wd ∈ searchOrder ws) : wd ∈ ws := by
  unfold searchOrder at hm
  obtain ⟨r, _, hblock⟩ := List.mem_flatMap.mp hm
  rcases List.mem_append.mp hblock with hc | hr
  · have := List.mem_reverse.mp hc
    exact (List.mem_filter.mp this).1
  · obtain rfl : wd = r := by simpa using hr
    have hrr : wd ∈ (rootsOf ws).reverse := by
      obtain ⟨r2, hr2, hb2⟩ := List.mem_flatMap.mp hm
      exact ‹wd ∈ (rootsOf ws).reverse›
    exact (List.mem_filter.mp (List.mem_reverse.mp hrr)).1

/- Every widget of a well-formed (single-nesting) store appears in the
reverse-z-order walk. -/
theorem mem_searchOrder_of_mem (ws : List Widget) (h2l : twoLevelB ws = true)
    (wd : Widget) (hm : wd ∈ ws) : wd ∈ searchOrder ws := by
  unfold searchOrder
  rw [List.mem_flatMap]
  cases hp : wd.parent with
  | none =>
    refine ⟨wd, ?_, ?_⟩
    · rw [List.mem_reverse]
      exact List.mem_filter.mpr ⟨hm, by simp [hp]⟩
    · exact List.mem_append.mpr (Or.inr (by simp))
  | some pid =>
    have hall := List.all_eq_true.mp h2l wd hm
    rw [hp] at hall
    obtain ⟨r, hr, hrprop⟩ := List.any_eq_true.mp hall
    simp only [Bool.and_eq_true, decide_eq_true_eq] at hrprop
    obtain ⟨hrid, hrpar⟩ := hrprop
    refine ⟨r, ?_, ?_⟩
    · rw [List.mem_reverse]
      exact List.mem_filter.mpr ⟨hr, by simp [hrpar]⟩
    · refine List.mem_append.mpr (Or.inl ?_)
      rw [List.mem_reverse]
      exact List.mem_filter.mpr ⟨hm, by simp [hp, hrid]⟩

/- A successful findAt names a widget present in the store that satisfies the
hit predicate. -/
theorem findAt_mem (ws : List Widget) (px py : Int) (i : Nat)
    (h : findAt ws px py = some i) :
    ∃ wd, wd ∈ ws ∧ wd.id = i ∧ hitB ws px py wd = true := by
  unfold findAt at h
  obtain ⟨wd, hfind, hid⟩ := Option.map_eq_some'.mp h
  exact ⟨wd, mem_of_mem_searchOrder ws wd (List.mem_of_find?_eq_some hfind),
         hid, List.find?_some hfind⟩

/-- C9: findAt never returns a hidden or disabled widget; it returns null iff
no widget of the store passes the hit test (visible, enabled, absolute
rectangle containing the point, not clipped away by an ancestor rectangle);
the returned widget is the first hit of the reverse-z-order walk (every
earlier widget of the walk fails the hit test); and among two hitting
siblings the more recently added one wins: if a sibling added after `wd`
passes the hit test, findAt does not return `wd`. -/
theorem findAt_spec (ws : List Widget) (px py : Int)
    (hnd : (ws.map (fun wd => wd.id)).Nodup)
    (h2l : twoLevelB ws = true) :
    (∀ i, findAt ws px py = some i →
       ∃ wd, wd ∈ ws ∧ wd.id = i ∧ wd.visible = true ∧ wd.disabled = false ∧
         hitB ws px py wd = true) ∧
    (findAt ws px py = none ↔ ∀ wd ∈ ws, hitB ws px py wd = false) ∧
    (∀ i, findAt ws px py = some i →
       ∃ l1 wd l2, searchOrder ws = l1 ++ wd :: l2 ∧ wd.id = i ∧
         hitB ws px py wd = true ∧ ∀ x ∈ l1, hitB ws px py x = false) ∧
    (∀ wd wd2, wd ∈ ws → wd2 ∈ ws → wd2.parent = wd.parent →
       addedAfter ws wd wd2 → hitB ws px py wd2 = true →
       findAt ws px py ≠ some wd.id) := by
  refine ⟨?_, ?_, ?_, ?_⟩
  · intro i h
    obtain ⟨wd, hmem, hid, hhit⟩ := findAt_mem ws px py i h
    have hv : wd.visible = true ∧ wd.disabled = false := by
      have hh := hhit
      simp only [hitB, Bool.and_eq_true, Bool.not_eq_true'] at hh
      tauto
    exact ⟨wd, hmem, hid, hv.1, hv.2, hhit⟩
  · constructor
    · intro h wd hmem
      unfold findAt at h
      rw [Option.map_eq_none'] at h
      have := List.find?_eq_none.mp h wd (mem_searchOrder_of_mem ws h2l wd hmem)
      simpa using this
    · intro hall
      unfold findAt
      rw [Option.map_eq_none', List.find?_eq_none]
      intro x hx
      simp [hall x (mem_of_mem_searchOrder ws x hx)]
  · intro i h
    unfold findAt at h
    obtain ⟨wd, hfind, hid⟩ := Option.map_eq_some'.mp h
    obtain ⟨l1, l2, hsplit, hfail⟩ := find?_split _ _ _ hfind
    exact ⟨l1, wd, l2, hsplit, hid, List.find?_some hfind, hfail⟩
  · intro wd wd2 hmemw hmem2 hpar hafter hhit2 hcontra
    obtain ⟨wdf, hfind, hidf⟩ := Option.map_eq_some'.mp hcontra
    have hmemf : wdf ∈ ws :=
      mem_of_mem_searchOrder ws wdf (List.mem_of_find?_eq_some hfind)
    have heq : wdf = wd := List.inj_on_of_nodup_map hnd hmemf hmemw hidf
    subst heq
    obtain ⟨d1, d2, hws, hmem2d⟩ := hafter
    have hnodup : ws.Nodup := List.Nodup.of_map _ hnd
    have hwd12 : wdf ∉ d1 ∧ wdf ∉ d2 := by
      rw [hws] at hnodup
      obtain ⟨h1, h2, hdis⟩ := List.nodup_append.mp hnodup
      exact ⟨fun hin => hdis hin (List.mem_cons_self _ _),
             (List.nodup_cons.mp h2).1⟩
    cases hp : wdf.parent with
    | none =>
      have hp2 : wd2.parent = none := hpar.trans hp
      have hroots : rootsOf ws = rootsOf d1 ++ wdf :: rootsOf d2 := by
        rw [hws]
        unfold rootsOf
        rw [List.filter_append, List.filter_cons_of_pos (by simp [hp])]
      have hrev : (rootsOf ws).reverse =
          (rootsOf d2).reverse ++ wdf :: (rootsOf d1).reverse := by
        rw [hroots]
        simp [List.reverse_append, List.append_assoc]
      have hS : searchOrder ws =
          ((rootsOf d2).reverse.flatMap
            (fun r => (childrenOf ws r.id).reverse ++ [r])) ++
          (((childrenOf ws wdf.id).reverse ++ [wdf]) ++
           ((rootsOf d1).reverse.flatMap
             (fun r => (childrenOf ws r.id).reverse ++ [r]))) := by
        unfold searchOrder
        rw [hrev, List.flatMap_append, List.flatMap_cons]
      have hnotin : wdf ∉ (rootsOf d2).reverse.flatMap
          (fun r => (childrenOf ws r.id).reverse ++ [r]) := by
        intro hin
        obtain ⟨r, hrmem, hblock⟩ := List.mem_flatMap.mp hin
        rcases List.mem_append.mp hblock with hc | hr
        · have hcp := (List.mem_filter.mp (List.mem_reverse.mp hc)).2
          rw [hp] at hcp
          simp at hcp
        · obtain rfl : wdf = r := by simpa using hr
          exact hwd12.2 (List.mem_filter.mp (List.mem_reverse.mp hrmem)).1
      rw [hS] at hfind
      have hpre := find?_prefix_none _ _ _ _ hfind hnotin
      have hmem2F : wd2 ∈ (rootsOf d2).reverse.flatMap
          (fun r => (childrenOf ws r.id).reverse ++ [r]) := by
        rw [List.mem_flatMap]
        refine ⟨wd2, ?_, List.mem_append.mpr (Or.inr (by simp))⟩
        rw [List.mem_reverse]
        exact List.mem_filter.mpr ⟨hmem2d, by simp [hp2]⟩
      have := hpre.1 wd2 hmem2F
      rw [hhit2] at this
      cases this
    | some pid =>
      have hp2 : wd2.parent = some pid := hpar.trans hp
      have hchild : childrenOf ws pid =
          childrenOf d1 pid ++ wdf :: childrenOf d2 pid := by
        rw [hws]
        unfold childrenOf
        rw [List.filter_append, List.filter_cons_of_pos (by simp [hp])]
      have hall := List.all_eq_true.mp h2l wdf hmemw
      rw [hp] at hall
      obtain ⟨r, hrws, hrprop⟩ := List.any_eq_true.mp hall
      simp only [Bool.and_eq_true, decide_eq_true_eq] at hrprop
      obtain ⟨hrid, hrpar⟩ := hrprop
      have hrrev : r ∈ (rootsOf ws).reverse := by
        rw [List.mem_reverse]
        exact List.mem_filter.mpr ⟨hrws, by simp [hrpar]⟩
      obtain ⟨R1, R2, hR⟩ := List.append_of_mem hrrev
      have hndroots : (rootsOf ws).reverse.Nodup :=
        List.nodup_reverse.mpr ((List.filter_sublist ws).nodup hnodup)
      have hrnotR1 : r ∉ R1 := by
        intro hin
        rw [hR] at hndroots
        obtain ⟨_, _, hdis⟩ := List.nodup_append.mp hndroots
        exact hdis hin (List.mem_cons_self _ _)
      have hS : searchOrder ws =
          (R1.flatMap (fun r2 => (childrenOf ws r2.id).reverse ++ [r2])) ++
          (((childrenOf ws r.id).reverse ++ [r]) ++
           (R2.flatMap (fun r2 => (childrenOf ws r2.id).reverse ++ [r2]))) := by
        unfold searchOrder
        rw [hR, List.flatMap_append, List.flatMap_cons]
      have hnotin1 : wdf ∉ R1.flatMap
          (fun r2 => (childrenOf ws r2.id).reverse ++ [r2]) := by
        intro hin
        obtain ⟨r2, hr2mem, hblock⟩ := List.mem_flatMap.mp hin
        have hr2ws : r2 ∈ ws := by
          have : r2 ∈ (rootsOf ws).reverse := by
            rw [hR]
            exact List.mem_append.mpr (Or.inl hr2mem)
          exact (List.mem_filter.mp (List.mem_reverse.mp this)).1
        rcases List.mem_append.mp hblock with hc | hr2self
        · have hcp := (List.mem_filter.mp (List.mem_reverse.mp hc)).2
          rw [hp] at hcp
          simp only [decide_eq_true_eq, Option.some.injEq] at hcp
          have : r2 = r := List.inj_on_of_nodup_map hnd hr2ws hrws (by rw [← hcp, hrid])
          subst this
          exact hrnotR1 hr2mem
        · obtain rfl : wdf = r2 := by simpa using hr2self
          have hmemroots : wdf ∈ rootsOf ws := by
            rw [← List.mem_reverse, hR]
            exact List.mem_append.mpr (Or.inl hr2mem)
          have hroot := (List.mem_filter.mp hmemroots).2
          rw [hp] at hroot
          simp at hroot
      rw [hS] at hfind
      have hstep1 := find?_prefix_none _ _ _ _ hfind hnotin1
      have hshape : ((childrenOf ws r.id).reverse ++ [r]) ++
          (R2.flatMap (fun r2 => (childrenOf ws r2.id).reverse ++ [r2])) =
          (childrenOf d2 pid).reverse ++
          (wdf :: ((childrenOf d1 pid).reverse ++
            ([r] ++ R2.flatMap (fun r2 => (childrenOf ws r2.id).reverse ++ [r2])))) := by
        rw [hrid, hchild]
        simp [List.reverse_append, List.append_assoc]
      rw [hshape] at hstep1
      have hnotin2 : wdf ∉ (childrenOf d2 pid).reverse := by
        intro hin
        exact hwd12.2 (List.mem_filter.mp (List.mem_reverse.mp hin)).1
      have hstep2 := find?_prefix_none _ _ _ _ hstep1.2 hnotin2
      have hmem2C : wd2 ∈ (childrenOf d2 pid).reverse := by
        rw [List.mem_reverse]
        exact List.mem_filter.mpr ⟨hmem2d, by simp [hp2]⟩
      have := hstep2.1 wd2 hmem2C
      rw [hhit2] at this
      cases this

/-- The spec scenario's root window R at (0,0) sized 320x240. -/
def rootR : Widget := ⟨0, none, 0, 0, 320, 240, true, false, false, false⟩

/-- The spec scenario's button B at (10,10) sized 100x30 inside R. -/
def buttonB : Widget := ⟨1, some 0, 10, 10, 100, 30, true, false, true, false⟩

/-- The spec scenario's widget store: R with child B. -/
def scenWidgets : List Widget := [rootR, buttonB]

/-- Witness for C9 on the spec scenario: at point (15,15), findAt returns the
button B (id 1), a visible and enabled widget. -/
theorem findAt_spec_witness :
    ∃ wd, wd ∈ scenWidgets ∧ wd.id = 1 ∧ wd.visible = true ∧
      wd.disabled = false ∧ hitB scenWidgets 15 15 wd = true :=
  (findAt_spec scenWidgets 15 15 (by decide) (by decide)).1 1 (by decide)

/-- A raw pointer sample consumed by the input router: a position and the
pressed/released flag (spec section 6, "Raw input source"). -/
structure Sample where
  px : Int
  py : Int
  pressed : Bool
  deriving DecidableEq, Repr

/-- The kinds of events the router posts into widget event handlers. -/
inductive EvKind where
  | press
  | move
  | release
  deriving DecidableEq, Repr

/-- Embedding of the `GUI_t` main object structure of gui.h restricted to its
logical fields: the millisecond clock (`Time`), the widget store rooted in
`Root`, the id allocator, `WindowActive`, `FocusedWidget`, the timer
collection (`Timers`), the touch router state (`Touch`/`TouchOld` reduced to
the pressed flag and the queued samples) with `ActiveWidget`, and the display
clip rectangle (`Display`). -/
structure GUIState where
  widgets : List Widget
  nextId : Nat
  windowActive : Option Nat
  focusedWidget : Option Nat
  activeWidget : Option Nat
  touchPressed : Bool
  timers : List Timer
  inputQueue : List Sample
  time : Nat
  lastTick : Nat
  dispX : Int
  dispY : Int
  dispW : Int
  dispH : Int
  deriving DecidableEq, Repr

/-- The state right after `GUI_Init`: empty tree, no active window, no
focused or active widget, router idle, no timers, clock at zero, and the
display clip covering a 320x240 surface. -/
def initState : GUIState :=
  ⟨[], 0, none, none, none, false, [], [], 0, 0, 0, 0, 320, 240⟩

/-- Modelled from the spec: the widget kinds as the core sees them — a
top-level window (container root), or an ordinary control, whose creation
requires a currently active window (spec section 4.4). -/
inductive WKind where
  | window
  | control
  deriving DecidableEq, Repr

/-- Modelled from the spec: `createWidget(kind, parent, rect)` (spec section
4.4), with the active-window check taken from the `__GUI_ASSERTACTIVEWIN`
macro of gui.h (`if (!GUI.WindowActive) return NULL;`): creating a control
with no active window aborts returning null before anything is touched;
a failed allocation aborts returning null likewise; otherwise the new widget
is appended to the store (most recent sibling last), created dirty, and a
new window becomes the active window. -/
def createWidget (s : GUIState) (kind : WKind) (allocOk : Bool)
    (x y w h : Int) (vis dis foc : Bool) : Option Nat × GUIState :=
  match kind with
  | .window =>
    if allocOk then
      (some s.nextId,
       { s with widgets := s.widgets ++ [⟨s.nextId, none, x, y, w, h, vis, dis, foc, true⟩],
                nextId := s.nextId + 1,
                windowActive := some s.nextId })
    else (none, s)
  | .control =>
    match s.windowActive with
    | none => (none, s)
    | some p =>
      if allocOk then
        (some s.nextId,
         { s with widgets := s.widgets ++ [⟨s.nextId, some p, x, y, w, h, vis, dis, foc, true⟩],
                  nextId := s.nextId + 1 })
      else (none, s)

/-- Membership of a widget in the subtree rooted at id `i`: the widget
itself, or (in the single-nesting design) a direct child of it. -/
def inSubtreeB (i : Nat) (wd : Widget) : Bool :=
  decide (wd.id = i) || decide (wd.parent = some i)

/-- Does destroying the subtree rooted at `i` remove the widget with id `j`? -/
def refRemoved (ws : List Widget) (i j : Nat) : Bool :=
  decide (j = i) ||
  ws.any (fun wd => decide (wd.id = j) && decide (wd.parent = some i))

/-- Clear a non-owning widget reference when it points into the subtree being
destroyed (spec section 4.4: destroying clears any active/focused reference
pointing at the destroyed widget or a descendant). -/
def clearRef (ws : List Widget) (i : Nat) (r : Option Nat) : Option Nat :=
  match r with
  | none => none
  | some j => if refRemoved ws i j then none else some j

/-- Modelled from the spec: `destroyWidget(handle)` (spec section 4.4) —
an unknown handle aborts the operation only; otherwise the widget and its
descendants are removed from the store and every active/focused/window
reference pointing into the destroyed subtree is cleared. -/
def destroyWidget (s : GUIState) (i : Nat) : GUIState :=
  if s.widgets.any (fun wd => decide (wd.id = i)) then
    { s with widgets := s.widgets.filter (fun wd => !(inSubtreeB i wd)),
             windowActive := clearRef s.widgets i s.windowActive,
             focusedWidget := clearRef s.widgets i s.focusedWidget,
             activeWidget := clearRef s.widgets i s.activeWidget }
  else s

/-- The focused-widget reference after a press on widget `i`: a focusable
widget takes the focus, otherwise the focus is left alone (spec section
4.5). -/
def focusAfterPress (s : GUIState) (i : Nat) : Option Nat :=
  match lookupW s.widgets i with
  | some wd => if wd.focusable then some i else s.focusedWidget
  | none => s.focusedWidget

/-- Modelled from the spec: one step of the input/touch router state machine
(spec section 4.5).  Idle + pressed sample: hit-test; on a hit the widget
becomes active (and focused when focusable), the router enters Pressed and
the widget receives a press event.  Pressed + pressed sample: the active
widget receives a move event whatever the position.  Pressed + released
sample: the active widget receives a release event, the active reference is
cleared and the router returns to Idle. -/
def processTouch (s : GUIState) (sm : Sample) : GUIState × List (Nat × EvKind) :=
  if s.touchPressed = false then
    if sm.pressed then
      match findAt s.widgets sm.px sm.py with
      | some i =>
        ({ s with activeWidget := some i,
                  focusedWidget := focusAfterPress s i,
                  touchPressed := true }, [(i, EvKind.press)])
      | none => (s, [])
    else (s, [])
  else
    if sm.pressed then
      match s.activeWidget with
      | some i => (s, [(i, EvKind.move)])
      | none => ({ s with touchPressed := false }, [])
    else
      match s.activeWidget with
      | some i =>
        ({ s with activeWidget := none, touchPressed := false },
         [(i, EvKind.release)])
      | none => ({ s with touchPressed := false }, [])

/-- The router state right after a press that hit widget `i`. -/
def pressedState (s : GUIState) (i : Nat) : GUIState :=
  { s with activeWidget := some i,
           focusedWidget := focusAfterPress s i,
           touchPressed := true }

/-- Modelled from the spec: step 1 of the process loop (spec section 4.6) —
feed the milliseconds elapsed since the last recorded tick to the timer
core; reports the number of timer callbacks fired. -/
def stageTimers (s : GUIState) : GUIState × Nat :=
  let r := coreAdvance s.timers (s.time - s.lastTick)
  ({ s with timers := r.1, lastTick := s.time }, r.2)

/-- Modelled from the spec: step 2 of the process loop — drain the queued raw
input samples through the router; reports the number of events dispatched. -/
def drainInput (s : GUIState) : GUIState × Nat :=
  s.inputQueue.foldl
    (fun acc sm =>
      let r := processTouch acc.1 sm
      (r.1, acc.2 + r.2.length))
    ({ s with inputQueue := [] }, 0)

/-- Does the redraw pass of the process loop draw this widget?  It must be
marked dirty, visible, and its absolute rectangle must meet the display clip
region — the `__GUI_RECT_MATCH` test from gui.h on corner coordinates. -/
def needsRedrawB (ws : List Widget) (dx dy dw dh : Int) (wd : Widget) : Bool :=
  wd.dirty && wd.visible &&
  rectMatch (absPos ws wd).1 (absPos ws wd).2
    ((absPos ws wd).1 + wd.w) ((absPos ws wd).2 + wd.h)
    dx dy (dx + dw) (dy + dh)

/-- Modelled from the spec: step 3 of the process loop — walk the tree,
invoke the drawing driver for every dirty widget whose clipped region is
non-empty and clear its dirty flag; reports the number of widgets redrawn. -/
def redrawPass (ws : List Widget) (dx dy dw dh : Int) : List Widget × Nat :=
  (ws.map (fun wd => if needsRedrawB ws dx dy dw dh wd then { wd with dirty := false } else wd),
   (ws.filter (needsRedrawB ws dx dy dw dh)).length)

/-- Modelled from the spec: step 3 of the process loop applied to a state. -/
def stageRedraw (s : GUIState) : GUIState × Nat :=
  let r := redrawPass s.widgets s.dispX s.dispY s.dispW s.dispH
  ({ s with widgets := r.1 }, r.2)

/-- Embedding of `GUI_Process` (declared in gui.h, "Processes all drawing
operations for GUI", returning the number of jobs done in the current call);
its body is modelled from the spec (section 4.6): advance timers by the
elapsed tick, drain queued input through the router, redraw dirty widgets,
and return the total work count. -/
def GUI_Process (s : GUIState) : GUIState × Int :=
  let a := stageTimers s
  let b := drainInput a.1
  let c := stageRedraw b.1
  (c.1, (a.2 : Int) + (b.2 : Int) + (c.2 : Int))

/-- The operations that drive a GUI state: widget creation and destruction,
a raw touch sample, a clock tick (`GUI_UpdateTime`), and a full
`GUI_Process` call. -/
inductive Op where
  | create (kind : WKind) (allocOk : Bool) (x y w h : Int) (vis dis foc : Bool)
  | destroy (i : Nat)
  | touch (sm : Sample)
  | tick (ms : Nat)
  | process
  deriving Repr

/-- Apply one operation to a state. -/
def applyOp (s : GUIState) (op : Op) : GUIState :=
  match op with
  | .create kind allocOk x y w h vis dis foc =>
    (createWidget s kind allocOk x y w h vis dis foc).2
  | .destroy i => destroyWidget s i
  | .touch sm => (processTouch s sm).1
  | .tick ms => { s with time := s.time + ms }
  | .process => (GUI_Process s).1

/-- The state reached from the freshly initialized GUI by a sequence of
operations: exactly the reachable states. -/
def run (ops : List Op) : GUIState :=
  ops.foldl applyOp initState

/-- C2: creating a widget whose kind requires a containing window while no
top-level window is active (GUI.WindowActive is null) aborts: the returned
handle is null and the whole GUI state is returned unchanged — the
`__GUI_ASSERTACTIVEWIN` early return of gui.h fires before anything is
allocated or linked. -/
theorem createWidget_no_active_window (s : GUIState) (allocOk : Bool)
    (x y w h : Int) (vis dis foc : Bool)
    (hwin : s.windowActive = none) :
    createWidget s WKind.control allocOk x y w h vis dis foc = (none, s) := by
  unfold createWidget
  rw [hwin]

/-- Witness for C2: on the freshly initialized state (no active window),
creating a control returns a null handle and the untouched state. -/
theorem createWidget_no_active_window_witness :
    createWidget initState WKind.control true 0 0 10 10 true false false =
      (none, initState) :=
  createWidget_no_active_window initState true 0 0 10 10 true false false rfl

/-- C5: while the router is Idle, a press sample that hit-tests to widget `i`
makes `i` the active widget, moves the router to Pressed and delivers a press
event to `i`; from the pressed state, every further pressed sample — at any
position whatsoever, inside or outside the widget's rectangle — delivers a
move event to `i` and changes nothing; a release sample at any position
delivers a release event to `i`, clears the active-widget reference to null
and returns the router to Idle. -/
theorem touch_router_gesture (s : GUIState) (px py : Int) (i : Nat)
    (hidle : s.touchPressed = false)
    (hfind : findAt s.widgets px py = some i) :
    processTouch s ⟨px, py, true⟩ = (pressedState s i, [(i, EvKind.press)]) ∧
    (∀ qx qy : Int,
      processTouch (pressedState s i) ⟨qx, qy, true⟩ =
        (pressedState s i, [(i, EvKind.move)])) ∧
    (∀ qx qy : Int,
      processTouch (pressedState s i) ⟨qx, qy, false⟩ =
        ({ pressedState s i with activeWidget := none, touchPressed := false },
         [(i, EvKind.release)])) := by
  refine ⟨?_, ?_, ?_⟩
  · simp [processTouch, hidle, hfind, pressedState]
  · intro qx qy
    simp [processTouch, pressedState]
  · intro qx qy
    simp [processTouch, pressedState]

/-- The spec scenario state: root window R (0,0,320,240) with child button B
(10,10,100,30), R being the active window, router idle. -/
def scenState : GUIState :=
  { initState with widgets := scenWidgets, nextId := 2, windowActive := some 0 }

/-- Witness for C5, the spec scenario: press at (15,15) hits B (id 1) and
makes it active with a press event; moving to (200,200) while held — a point
outside B's rectangle — still sends B a move event; releasing at (200,200)
sends B the release event, clears the active widget and returns to Idle. -/
theorem touch_router_gesture_witness :
    processTouch scenState ⟨15, 15, true⟩ =
      (pressedState scenState 1, [(1, EvKind.press)]) ∧
    processTouch (pressedState scenState 1) ⟨200, 200, true⟩ =
      (pressedState scenState 1, [(1, EvKind.move)]) ∧
    processTouch (pressedState scenState 1) ⟨200, 200, false⟩ =
      ({ pressedState scenState 1 with activeWidget := none, touchPressed := false },
       [(1, EvKind.release)]) := by
  have h := touch_router_gesture scenState 15 15 1 rfl (by decide)
  exact ⟨h.1, h.2.1 200 200, h.2.2 200 200⟩

/-- The core state invariant: every stored id is below the allocator, ids
are unique, every parent reference points backwards at a root window present
in the store, and the non-owning references (active widget, focused widget,
active window) point at widgets present in the store. -/
structure Inv (s : GUIState) : Prop where
  idsLt : ∀ wd ∈ s.widgets, wd.id < s.nextId
  ndIds : (s.widgets.map (fun wd => wd.id)).Nodup
  parentOk : ∀ wd ∈ s.widgets, ∀ p, wd.parent = some p →
    p < wd.id ∧ ∃ q ∈ s.widgets, q.id = p ∧ q.parent = none
  activeOk : ∀ i, s.activeWidget = some i → ∃ wd ∈ s.widgets, wd.id = i
  focusOk : ∀ i, s.focusedWidget = some i → ∃ wd ∈ s.widgets, wd.id = i
  winOk : ∀ i, s.windowActive = some i →
    ∃ wd ∈ s.widgets, wd.id = i ∧ wd.parent = none

/- The invariant transfers to any state with the same widgets, allocator and
active window whose active/focused references are still backed by widgets. -/
theorem inv_same_widgets (s s2 : GUIState) (hs : Inv s)
    (hw : s2.widgets = s.widgets) (hn : s2.nextId = s.nextId)
    (hwin : s2.windowActive = s.windowActive)
    (hact : ∀ i, s2.activeWidget = some i → ∃ wd ∈ s.widgets, wd.id = i)
    (hfoc : ∀ i, s2.focusedWidget = some i → ∃ wd ∈ s.widgets, wd.id = i) :
    Inv s2 := by
  constructor
  · rw [hw, hn]; exact hs.idsLt
  · rw [hw]; exact hs.ndIds
  · rw [hw]; exact hs.parentOk
  · rw [hw]; exact hact
  · rw [hw]; exact hfoc
  · rw [hw, hwin]; exact hs.winOk

/- Creation preserves the invariant. -/
theorem inv_create (s : GUIState) (kind : WKind) (allocOk : Bool)
    (x y w h : Int) (vis dis foc : Bool) (hs : Inv s) :
    Inv (createWidget s kind allocOk x y w h vis dis foc).2 := by
  have hfresh : ∀ a ∈ s.widgets.map (fun wd => wd.id), a ≠ s.nextId := by
    intro a ha
    obtain ⟨wd, hwd, rfl⟩ := List.mem_map.mp ha
    exact Nat.ne_of_lt (hs.idsLt wd hwd)
  cases kind with
  | window =>
    cases allocOk with
    | false => exact hs
    | true =>
      simp only [createWidget, if_true]
      constructor
      · intro wd hm
        rcases List.mem_append.mp hm with hold | hnew
        · exact Nat.lt_succ_of_lt (hs.idsLt wd hold)
        · obtain rfl : wd = ⟨s.nextId, none, x, y, w, h, vis, dis, foc, true⟩ := by
            simpa using hnew
          exact Nat.lt_succ_self _
      · simp only [List.map_append]
        rw [List.nodup_append]
        refine ⟨hs.ndIds, by simp, ?_⟩
        intro a ha hb
        simp only [List.map_cons, List.map_nil, List.mem_singleton] at hb
        exact hfresh a ha hb
      · intro wd hm p hp
        rcases List.mem_append.mp hm with hold | hnew
        · obtain ⟨hlt, q, hq, hqid, hqpar⟩ := hs.parentOk wd hold p hp
          exact ⟨hlt, q, List.mem_append.mpr (Or.inl hq), hqid, hqpar⟩
        · obtain rfl : wd = ⟨s.nextId, none, x, y, w, h, vis, dis, foc, true⟩ := by
            simpa using hnew
          cases hp
      · intro i hi
        obtain ⟨wd, hwd, hid⟩ := hs.activeOk i hi
        exact ⟨wd, List.mem_append.mpr (Or.inl hwd), hid⟩
      · intro i hi
        obtain ⟨wd, hwd, hid⟩ := hs.focusOk i hi
        exact ⟨wd, List.mem_append.mpr (Or.inl hwd), hid⟩
      · intro i hi
        obtain rfl : s.nextId = i := by simpa using hi
        exact ⟨⟨s.nextId, none, x, y, w, h, vis, dis, foc, true⟩,
               List.mem_append.mpr (Or.inr (by simp)), rfl, rfl⟩
  | control =>
    cases hwin : s.windowActive with
    | none => simp only [createWidget, hwin]; exact hs
    | some p0 =>
      cases allocOk with
      | false => simp only [createWidget, hwin]; exact hs
      | true =>
        obtain ⟨q0, hq0, hq0id, hq0par⟩ := hs.winOk p0 hwin
        simp only [createWidget, hwin, if_true]
        constructor
        · intro wd hm
          rcases List.mem_append.mp hm with hold | hnew
          · exact Nat.lt_succ_of_lt (hs.idsLt wd hold)
          · obtain rfl : wd = ⟨s.nextId, some p0, x, y, w, h, vis, dis, foc, true⟩ := by
              simpa using hnew
            exact Nat.lt_succ_self _
        · simp only [List.map_append]
          rw [List.nodup_append]
          refine ⟨hs.ndIds, by simp, ?_⟩
          intro a ha hb
          simp only [List.map_cons, List.map_nil, List.mem_singleton] at hb
          exact hfresh a ha hb
        · intro wd hm p hp
          rcases List.mem_append.mp hm with hold | hnew
          · obtain ⟨hlt, q, hq, hqid, hqpar⟩ := hs.parentOk wd hold p hp
            exact ⟨hlt, q, List.mem_append.mpr (Or.inl hq), hqid, hqpar⟩
          · obtain rfl : wd = ⟨s.nextId, some p0, x, y, w, h, vis, dis, foc, true⟩ := by
              simpa using hnew
            obtain rfl : p0 = p := by injection hp
            exact ⟨hq0id ▸ hs.idsLt q0 hq0,
                   q0, List.mem_append.mpr (Or.inl hq0), hq0id, hq0par⟩
        · intro i hi
          obtain ⟨wd, hwd, hid⟩ := hs.activeOk i hi
          exact ⟨wd, List.mem_append.mpr (Or.inl hwd), hid⟩
        · intro i hi
          obtain ⟨wd, hwd, hid⟩ := hs.focusOk i hi
          exact ⟨wd, List.mem_append.mpr (Or.inl hwd), hid⟩
        · intro i hi
          obtain rfl : p0 = i := by injection hi
          exact ⟨q0, List.mem_append.mpr (Or.inl hq0), hq0id, hq0par⟩

/- A widget whose id is not scheduled for removal survives the destroy
filter. -/
theorem survive_of_refRemoved_false (ws : List Widget) (i : Nat) (wd : Widget)
    (hmem : wd ∈ ws) (hrr : refRemoved ws i wd.id = false) :
    wd ∈ ws.filter (fun w2 => !(inSubtreeB i w2)) := by
  rw [List.mem_filter]
  refine ⟨hmem, ?_⟩
  simp only [inSubtreeB, Bool.not_eq_true', Bool.or_eq_false_iff,
    decide_eq_false_iff_not]
  constructor
  · intro hid
    have : refRemoved ws i wd.id = true := by simp [refRemoved, hid]
    rw [this] at hrr; cases hrr
  · intro hpar
    have : refRemoved ws i wd.id = true := by
      simp only [refRemoved, List.any_eq_true, Bool.or_eq_true,
        decide_eq_true_eq, Bool.and_eq_true]
      exact Or.inr ⟨wd, hmem, rfl, hpar⟩
    rw [this] at hrr; cases hrr

/- Destruction preserves the invariant. -/
theorem inv_destroy (s : GUIState) (i : Nat) (hs : Inv s) :
    Inv (destroyWidget s i) := by
  unfold destroyWidget
  by_cases hpresent : s.widgets.any (fun wd => decide (wd.id = i)) = true
  · rw [if_pos hpresent]
    constructor
    · intro wd hm
      exact hs.idsLt wd (List.mem_filter.mp hm).1
    · exact ((List.filter_sublist s.widgets).map _).nodup hs.ndIds
    · intro wd hm p hp
      obtain ⟨hmem, hkeep⟩ := List.mem_filter.mp hm
      obtain ⟨hlt, q, hq, hqid, hqpar⟩ := hs.parentOk wd hmem p hp
      refine ⟨hlt, q, List.mem_filter.mpr ⟨hq, ?_⟩, hqid, hqpar⟩
      simp only [inSubtreeB, Bool.not_eq_true', Bool.or_eq_false_iff,
        decide_eq_false_iff_not]
      refine ⟨?_, by simp [hqpar]⟩
      intro hqi
      have : inSubtreeB i wd = true := by
        simp [inSubtreeB, hp, ← hqi, hqid]
      rw [this] at hkeep
      cases hkeep
    · intro j hj
      cases hact : s.activeWidget with
      | none => rw [hact] at hj; cases hj
      | some j0 =>
        rw [hact] at hj
        simp only [clearRef] at hj
        by_cases hrr : refRemoved s.widgets i j0 = true
        · rw [if_pos hrr] at hj; cases hj
        · rw [if_neg hrr] at hj
          obtain rfl : j0 = j := by injection hj
          obtain ⟨wd, hwd, hid⟩ := hs.activeOk j0 hact
          exact ⟨wd, survive_of_refRemoved_false s.widgets i wd hwd
                    (by rw [hid]; exact Bool.not_eq_true _ ▸ (by simpa using hrr)), hid⟩
    · intro j hj
      cases hfoc : s.focusedWidget with
      | none => rw [hfoc] at hj; cases hj
      | some j0 =>
        rw [hfoc] at hj
        simp only [clearRef] at hj
        by_cases hrr : refRemoved s.widgets i j0 = true
        · rw [if_pos hrr] at hj; cases hj
        · rw [if_neg hrr] at hj
          obtain rfl : j0 = j := by injection hj
          obtain ⟨wd, hwd, hid⟩ := hs.focusOk j0 hfoc
          exact ⟨wd, survive_of_refRemoved_false s.widgets i wd hwd
                    (by rw [hid]; exact Bool.not_eq_true _ ▸ (by simpa using hrr)), hid⟩
    · intro j hj
      cases hwin : s.windowActive with
      | none => rw [hwin] at hj; cases hj
      | some j0 =>
        rw [hwin] at hj
        simp only [clearRef] at hj
        by_cases hrr : refRemoved s.widgets i j0 = true
        · rw [if_pos hrr] at hj; cases hj
        · rw [if_neg hrr] at hj
          obtain rfl : j0 = j := by injection hj
          obtain ⟨wd, hwd, hid, hpar⟩ := hs.winOk j0 hwin
          exact ⟨wd, survive_of_refRemoved_false s.widgets i wd hwd
                    (by rw [hid]; exact Bool.not_eq_true _ ▸ (by simpa using hrr)),
                 hid, hpar⟩
  · rw [if_neg hpresent]
    exact hs

/- One router step preserves the invariant. -/
theorem inv_touch (s : GUIState) (sm : Sample) (hs : Inv s) :
    Inv (processTouch s sm).1 := by
  by_cases hidle : s.touchPressed = false
  · cases hsp : sm.pressed with
    | false =>
      have hres : (processTouch s sm).1 = s := by
        simp [processTouch, hidle, hsp]
      rw [hres]; exact hs
    | true =>
      cases hf : findAt s.widgets sm.px sm.py with
      | none =>
        have hres : (processTouch s sm).1 = s := by
          simp [processTouch, hidle, hsp, hf]
        rw [hres]; exact hs
      | some i =>
        obtain ⟨wd0, hwd0, hid0, _⟩ := findAt_mem s.widgets sm.px sm.py i hf
        have hres : (processTouch s sm).1 = pressedState s i := by
          simp [processTouch, hidle, hsp, hf, pressedState]
        rw [hres]
        refine inv_same_widgets s _ hs rfl rfl rfl ?_ ?_
        · intro j hj
          obtain rfl : i = j := by simpa [pressedState] using hj
          exact ⟨wd0, hwd0, hid0⟩
        · intro j hj
          have hj2 : focusAfterPress s i = some j := by
            simpa [pressedState] using hj
          unfold focusAfterPress at hj2
          cases hl : lookupW s.widgets i with
          | none =>
            rw [hl] at hj2
            exact hs.focusOk j hj2
          | some wdl =>
            rw [hl] at hj2
            have hj3 : (if wdl.focusable = true then some i else s.focusedWidget) = some j := hj2
            by_cases hfo : wdl.focusable = true
            · rw [if_pos hfo] at hj3
              obtain rfl : i = j := by injection hj3
              exact ⟨wd0, hwd0, hid0⟩
            · rw [if_neg hfo] at hj3
              exact hs.focusOk j hj3
  · have htp : s.touchPressed = true := by
      simpa using hidle
    cases hsp : sm.pressed with
    | true =>
      cases hact : s.activeWidget with
      | some i =>
        have hres : (processTouch s sm).1 = s := by
          simp [processTouch, htp, hsp, hact]
        rw [hres]; exact hs
      | none =>
        have hres : (processTouch s sm).1 = { s with touchPressed := false } := by
          simp [processTouch, htp, hsp, hact]
        rw [hres]
        exact inv_same_widgets s _ hs rfl rfl rfl hs.activeOk hs.focusOk
    | false =>
      cases hact : s.activeWidget with
      | some i =>
        have hres : (processTouch s sm).1 =
            { s with activeWidget := none, touchPressed := false } := by
          simp [processTouch, htp, hsp, hact]
        rw [hres]
        refine inv_same_widgets s _ hs rfl rfl rfl ?_ hs.focusOk
        intro j hj
        simp at hj
      | none =>
        have hres : (processTouch s sm).1 = { s with touchPressed := false } := by
          simp [processTouch, htp, hsp, hact]
        rw [hres]
        exact inv_same_widgets s _ hs rfl rfl rfl hs.activeOk hs.focusOk

/- Rewriting every widget through an id- and parent-preserving function
preserves the invariant (the redraw pass only clears dirty flags). -/
theorem inv_map_widgets (s : GUIState) (f : Widget → Widget)
    (hid : ∀ wd, (f wd).id = wd.id) (hpar : ∀ wd, (f wd).parent = wd.parent)
    (hs : Inv s) : Inv { s with widgets := s.widgets.map f } := by
  constructor
  · intro wd hm
    obtain ⟨w0, hw0, rfl⟩ := List.mem_map.mp hm
    rw [hid]
    exact hs.idsLt w0 hw0
  · have hmm2 : ((s.widgets.map f).map (fun wd => wd.id)) =
        s.widgets.map (fun wd => wd.id) := by
      rw [List.map_map]
      exact List.map_congr_left (fun a _ => hid a)
    rw [hmm2]
    exact hs.ndIds
  · intro wd hm p hp
    obtain ⟨w0, hw0, rfl⟩ := List.mem_map.mp hm
    rw [hpar] at hp
    obtain ⟨hlt, q, hq, hqid, hqpar⟩ := hs.parentOk w0 hw0 p hp
    exact ⟨by rw [hid]; exact hlt,
           f q, List.mem_map.mpr ⟨q, hq, rfl⟩, by rw [hid]; exact hqid,
           by rw [hpar]; exact hqpar⟩
  · intro i hi
    obtain ⟨wd, hwd, hidw⟩ := hs.activeOk i hi
    exact ⟨f wd, List.mem_map.mpr ⟨wd, hwd, rfl⟩, by rw [hid]; exact hidw⟩
  · intro i hi
    obtain ⟨wd, hwd, hidw⟩ := hs.focusOk i hi
    exact ⟨f wd, List.mem_map.mpr ⟨wd, hwd, rfl⟩, by rw [hid]; exact hidw⟩
  · intro i hi
    obtain ⟨wd, hwd, hidw, hparw⟩ := hs.winOk i hi
    exact ⟨f wd, List.mem_map.mpr ⟨wd, hwd, rfl⟩, by rw [hid]; exact hidw,
           by rw [hpar]; exact hparw⟩

/- Draining the input queue preserves the invariant. -/
theorem inv_drain_fold (q : List Sample) :
    ∀ (acc : GUIState × Nat), Inv acc.1 →
      Inv ((q.foldl (fun acc sm =>
        let r := processTouch acc.1 sm
        (r.1, acc.2 + r.2.length)) acc).1) := by
  induction q with
  | nil => intro acc h; exact h
  | cons sm rest ih =>
    intro acc h
    rw [List.foldl_cons]
    exact ih _ (inv_touch acc.1 sm h)

/- A full process call preserves the invariant. -/
theorem inv_process (s : GUIState) (hs : Inv s) : Inv (GUI_Process s).1 := by
  have h1 : Inv (stageTimers s).1 := by
    refine inv_same_widgets s _ hs rfl rfl rfl hs.activeOk hs.focusOk
  have h2 : Inv (drainInput (stageTimers s).1).1 := by
    unfold drainInput
    refine inv_drain_fold _ _ ?_
    refine inv_same_widgets (stageTimers s).1 _ h1 rfl rfl rfl h1.activeOk h1.focusOk
  have h3 : Inv (stageRedraw (drainInput (stageTimers s).1).1).1 := by
    unfold stageRedraw redrawPass
    refine inv_map_widgets _ _ ?_ ?_ h2
    · intro wd
      by_cases h : needsRedrawB (drainInput (stageTimers s).1).1.widgets
          (drainInput (stageTimers s).1).1.dispX (drainInput (stageTimers s).1).1.dispY
          (drainInput (stageTimers s).1).1.dispW (drainInput (stageTimers s).1).1.dispH wd = true
      · rw [if_pos h]
      · rw [if_neg h]
    · intro wd
      by_cases h : needsRedrawB (drainInput (stageTimers s).1).1.widgets
          (drainInput (stageTimers s).1).1.dispX (drainInput (stageTimers s).1).1.dispY
          (drainInput (stageTimers s).1).1.dispW (drainInput (stageTimers s).1).1.dispH wd = true
      · rw [if_pos h]
      · rw [if_neg h]
  exact h3

/- The invariant holds right after initialization. -/
theorem inv_init : Inv initState := by
  constructor
  · intro wd hm; cases hm
  · simp [initState]
  · intro wd hm; cases hm
  · intro i hi; cases hi
  · intro i hi; cases hi
  · intro i hi; cases hi

/- The invariant is preserved by every operation. -/
theorem inv_applyOp (s : GUIState) (op : Op) (hs : Inv s) :
    Inv (applyOp s op) := by
  cases op with
  | create kind allocOk x y w h vis dis foc => exact inv_create s kind allocOk x y w h vis dis foc hs
  | destroy i => exact inv_destroy s i hs
  | touch sm => exact inv_touch s sm hs
  | tick ms => exact inv_same_widgets s _ hs rfl rfl rfl hs.activeOk hs.focusOk
  | process => exact inv_process s hs

/- The invariant holds in every reachable state. -/
theorem inv_run (ops : List Op) : Inv (run ops) := by
  unfold run
  have : ∀ (l : List Op) (s : GUIState), Inv s → Inv (l.foldl applyOp s) := by
    intro l
    induction l with
    | nil => intro s h; exact h
    | cons op rest ih =>
      intro s h
      rw [List.foldl_cons]
      exact ih _ (inv_applyOp s op h)
  exact this ops initState inv_init

/-- The parent-of relation on widget ids induced by a store. -/
def parentRel (ws : List Widget) (a b : Nat) : Prop :=
  ∃ wd ∈ ws, wd.id = a ∧ wd.parent = some b

/- Every parent chain strictly decreases ids, so it cannot loop. -/
theorem transGen_parentRel_lt (ws : List Widget)
    (hpar : ∀ wd ∈ ws, ∀ p, wd.parent = some p → p < wd.id) :
    ∀ a b, Relation.TransGen (parentRel ws) a b → b < a := by
  intro a b h
  induction h with
  | single h1 =>
    obtain ⟨wd, hm, hid, hp⟩ := h1
    have := hpar wd hm _ hp
    omega
  | tail h1 h2 ih =>
    obtain ⟨wd, hm, hid, hp⟩ := h2
    have := hpar wd hm _ hp
    omega

/-- C7: in every state reachable by any sequence of operations (widget
creation and destruction included), every non-root widget's parent reference
points at a widget currently present in the store, and the parent relation
has no cycles: no id is its own proper ancestor. -/
theorem widget_tree_acyclic (ops : List Op) :
    (∀ wd ∈ (run ops).widgets, ∀ p, wd.parent = some p →
       ∃ q ∈ (run ops).widgets, q.id = p) ∧
    (∀ a, ¬ Relation.TransGen (parentRel (run ops).widgets) a a) := by
  have hs := inv_run ops
  constructor
  · intro wd hm p hp
    obtain ⟨_, q, hq, hqid, _⟩ := hs.parentOk wd hm p hp
    exact ⟨q, hq, hqid⟩
  · intro a h
    have := transGen_parentRel_lt (run ops).widgets
      (fun wd hm p hp => (hs.parentOk wd hm p hp).1) a a h
    omega

/- Generic helper: a list splits into the part kept and the part dropped by a
filter. -/
theorem length_filter_not_partition {α : Type} (p : α → Bool) (l : List α) :
    (l.filter (fun a => !(p a))).length + (l.filter p).length = l.length := by
  induction l with
  | nil => rfl
  | cons a t ih =>
    by_cases h : p a = true
    · simp [List.filter_cons, h]
      omega
    · have h2 : p a = false := by simpa using h
      simp [List.filter_cons, h2]
      omega

/-- C6: in every reachable state the active-widget and focused-widget
references, when non-null, point at a widget present in the store; and
destroying the subtree rooted at any id removes exactly the widgets of that
subtree — each removed widget is gone, every other widget survives, and the
count of survivors plus the count of subtree members is the original count,
so each descendant is destroyed exactly once — while any active or focused
reference pointing into the destroyed subtree is cleared to null. -/
theorem refs_live_and_destroy (ops : List Op) (i : Nat) :
    (∀ j, (run ops).activeWidget = some j →
       ∃ wd ∈ (run ops).widgets, wd.id = j) ∧
    (∀ j, (run ops).focusedWidget = some j →
       ∃ wd ∈ (run ops).widgets, wd.id = j) ∧
    (∀ wd ∈ (run ops).widgets, inSubtreeB i wd = true →
       wd ∉ (destroyWidget (run ops) i).widgets) ∧
    (∀ wd ∈ (run ops).widgets, inSubtreeB i wd = false →
       wd ∈ (destroyWidget (run ops) i).widgets) ∧
    ((destroyWidget (run ops) i).widgets.length +
       ((run ops).widgets.filter (fun wd => inSubtreeB i wd)).length =
       (run ops).widgets.length) ∧
    (∀ j, (run ops).activeWidget = some j →
       refRemoved (run ops).widgets i j = true →
       (destroyWidget (run ops) i).activeWidget = none) ∧
    (∀ j, (run ops).focusedWidget = some j →
       refRemoved (run ops).widgets i j = true →
       (destroyWidget (run ops) i).focusedWidget = none) := by
  have hs := inv_run ops
  by_cases hpresent : (run ops).widgets.any (fun wd => decide (wd.id = i)) = true
  · have hdw : destroyWidget (run ops) i =
        { run ops with
          widgets := (run ops).widgets.filter (fun wd => !(inSubtreeB i wd)),
          windowActive := clearRef (run ops).widgets i (run ops).windowActive,
          focusedWidget := clearRef (run ops).widgets i (run ops).focusedWidget,
          activeWidget := clearRef (run ops).widgets i (run ops).activeWidget } := by
      unfold destroyWidget
      rw [if_pos hpresent]
    refine ⟨hs.activeOk, hs.focusOk, ?_, ?_, ?_, ?_, ?_⟩
    · intro wd hm hsub hin
      rw [hdw] at hin
      have hkeep := (List.mem_filter.mp hin).2
      rw [hsub] at hkeep
      cases hkeep
    · intro wd hm hsub
      rw [hdw]
      exact List.mem_filter.mpr ⟨hm, by rw [hsub]; rfl⟩
    · rw [hdw]
      exact length_filter_not_partition _ _
    · intro j hact hrr
      rw [hdw]
      simp only [clearRef, hact]
      rw [if_pos hrr]
    · intro j hfoc hrr
      rw [hdw]
      simp only [clearRef, hfoc]
      rw [if_pos hrr]
  · have hdw : destroyWidget (run ops) i = run ops := by
      unfold destroyWidget
      rw [if_neg hpresent]
    have hno : ∀ wd ∈ (run ops).widgets, inSubtreeB i wd = false := by
      intro wd hm
      by_contra hcon
      have hcon2 : inSubtreeB i wd = true := by
        cases hx : inSubtreeB i wd
        · exact absurd hx hcon
        · rfl
      simp only [inSubtreeB, Bool.or_eq_true, decide_eq_true_eq] at hcon2
      rcases hcon2 with hid | hpar
      · exact hpresent (List.any_eq_true.mpr ⟨wd, hm, by simp [hid]⟩)
      · obtain ⟨_, q, hq, hqid, _⟩ := hs.parentOk wd hm i hpar
        exact hpresent (List.any_eq_true.mpr ⟨q, hq, by simp [hqid]⟩)
    have hnorr : ∀ j, (∃ wd ∈ (run ops).widgets, wd.id = j) →
        refRemoved (run ops).widgets i j = false := by
      intro j hex
      cases hx : refRemoved (run ops).widgets i j
      · rfl
      · exfalso
        simp only [refRemoved, Bool.or_eq_true, decide_eq_true_eq,
          List.any_eq_true, Bool.and_eq_true] at hx
        rcases hx with rfl | ⟨wd, hm, hidw, hparw⟩
        · obtain ⟨wd, hm, hid⟩ := hex
          exact hpresent (List.any_eq_true.mpr ⟨wd, hm, by simp [hid]⟩)
        · obtain ⟨_, q, hq, hqid, _⟩ := hs.parentOk wd hm i hparw
          exact hpresent (List.any_eq_true.mpr ⟨q, hq, by simp [hqid]⟩)
    refine ⟨hs.activeOk, hs.focusOk, ?_, ?_, ?_, ?_, ?_⟩
    · intro wd hm hsub
      rw [hno wd hm] at hsub
      cases hsub
    · intro wd hm hsub
      rw [hdw]
      exact hm
    · rw [hdw]
      have hfe : (run ops).widgets.filter (fun wd => inSubtreeB i wd) = [] :=
        List.filter_eq_nil_iff.mpr (fun wd hm => by rw [hno wd hm]; simp)
      rw [hfe]
      simp
    · intro j hact hrr
      rw [hnorr j (hs.activeOk j hact)] at hrr
      cases hrr
    · intro j hfoc hrr
      rw [hnorr j (hs.focusOk j hfoc)] at hrr
      cases hrr

/-- The spec scenario as an operation sequence: create the root window,
create the button inside it, press at (15,15). -/
def scenOps : List Op :=
  [Op.create WKind.window true 0 0 320 240 true false false,
   Op.create WKind.control true 10 10 100 30 true false true,
   Op.touch ⟨15, 15, true⟩]

/-- Witness for C6 on the scenario run: after pressing the button (id 1) it
is the active widget and is present in the store; destroying the root window
(id 0) — whose subtree contains the button — clears the active reference. -/
theorem refs_live_and_destroy_witness :
    (∃ wd ∈ (run scenOps).widgets, wd.id = 1) ∧
    (destroyWidget (run scenOps) 0).activeWidget = none :=
  ⟨(refs_live_and_destroy scenOps 0).1 1 (by decide),
   (refs_live_and_destroy scenOps 0).2.2.2.2.2.1 1 (by decide) (by decide)⟩

/-- Witness for C7 on the scenario run: the button widget (id 1, parent 0)
is present after the run, and its parent reference resolves to a live widget
with id 0. -/
theorem widget_tree_acyclic_witness :
    ∃ q ∈ (run scenOps).widgets, q.id = 0 :=
  (widget_tree_acyclic scenOps).1
    ⟨1, some 0, 10, 10, 100, 30, true, false, true, true⟩ (by decide) 0 rfl

/- Timers that have not yet counted down fire nothing. -/
theorem coreAdvance_no_fire (ts : List Timer) (e : Nat)
    (h : ∀ t ∈ ts, e < t.remaining) : (coreAdvance ts e).2 = 0 := by
  induction ts with
  | nil => rfl
  | cons t rest ih =>
    have ht : advanceTimer t e = ({ t with remaining := t.remaining - e }, 0) := by
      rw [advanceTimer, if_pos (h t (List.mem_cons_self t rest))]
    have hrest := ih (fun u hu => h u (List.mem_cons_of_mem t hu))
    simp [coreAdvance, ht, hrest]

/-- C8: each GUI_Process call returns the number of timer callbacks fired
plus the number of input events dispatched plus the number of widgets
redrawn during that call; this work count is never negative; and a call that
finds no timer ready to fire, an empty input queue, and no widget in need of
redrawing returns exactly zero. -/
theorem GUI_Process_spec (s : GUIState) :
    ((GUI_Process s).2 =
      ((stageTimers s).2 : Int) + ((drainInput (stageTimers s).1).2 : Int) +
      ((stageRedraw (drainInput (stageTimers s).1).1).2 : Int)) ∧
    0 ≤ (GUI_Process s).2 ∧
    ((∀ t ∈ s.timers, s.time - s.lastTick < t.remaining) →
     s.inputQueue = [] →
     (∀ wd ∈ s.widgets,
        needsRedrawB s.widgets s.dispX s.dispY s.dispW s.dispH wd = false) →
     (GUI_Process s).2 = 0) := by
  have h1 : (GUI_Process s).2 =
      ((stageTimers s).2 : Int) + ((drainInput (stageTimers s).1).2 : Int) +
      ((stageRedraw (drainInput (stageTimers s).1).1).2 : Int) := rfl
  refine ⟨h1, ?_, ?_⟩
  · rw [h1]
    omega
  · intro ht hq hd
    have ha : (stageTimers s).2 = 0 := by
      have h2 : (stageTimers s).2 = (coreAdvance s.timers (s.time - s.lastTick)).2 := rfl
      rw [h2]
      exact coreAdvance_no_fire s.timers (s.time - s.lastTick) ht
    have hqueue : (stageTimers s).1.inputQueue = [] := hq
    have hdrain : (drainInput (stageTimers s).1).1 =
        { (stageTimers s).1 with inputQueue := [] } := by
      unfold drainInput
      rw [hqueue]
      rfl
    have hb : (drainInput (stageTimers s).1).2 = 0 := by
      unfold drainInput
      rw [hqueue]
      rfl
    have hfe : s.widgets.filter
        (needsRedrawB s.widgets s.dispX s.dispY s.dispW s.dispH) = [] :=
      List.filter_eq_nil_iff.mpr (fun wd hm => by simp [hd wd hm])
    have hc : (stageRedraw (drainInput (stageTimers s).1).1).2 = 0 := by
      rw [hdrain]
      show (s.widgets.filter
        (needsRedrawB s.widgets s.dispX s.dispY s.dispW s.dispH)).length = 0
      rw [hfe]
      rfl
    rw [h1, ha, hb, hc]
    rfl

/-- Witness for C8: the freshly initialized state has no timers, no queued
input and no dirty widgets, and its process call reports zero work. -/
theorem GUI_Process_spec_witness : (GUI_Process initState).2 = 0 :=
  (GUI_Process_spec initState).2.2 (by decide) rfl (by decide)

end EasyGUI
